import Mathlib

/-!
Shallow embedding of the voxel-world demo (`src/components/Minecraft.tsx`):
block data model, world generation, the block store's add/remove handlers,
the visibility filter, the hotbar selection dispatch, and one tick of the
player controller.  TypeScript `number` fields are embedded as `ℚ`; the
loop counters and generated coordinates, which are integers in the source,
are embedded as `Int`/`Nat` and cast where they are stored into blocks.
-/

/-- The 12 block type identifiers, in the fixed declaration order of the
`BLOCK_TYPES` object (`Object.keys` order in the source). -/
inductive BlockType where
  | grass | dirt | stone | wood | leaves | planks
  | bricks | glass | wool | flower | torch | stairs
deriving DecidableEq, Repr

/-- The fixed ordering of the block types, as `Object.keys(BLOCK_TYPES)`. -/
def blockTypesList : List BlockType :=
  [.grass, .dirt, .stone, .wood, .leaves, .planks,
   .bricks, .glass, .wool, .flower, .torch, .stairs]

/-- A placed block: coordinates (TypeScript `number`, embedded as `ℚ`)
plus a type. -/
structure Block where
  x : ℚ
  y : ℚ
  z : ℚ
  type : BlockType
deriving DecidableEq, Repr

/-- The coordinate key of a block. -/
def Block.coords (b : Block) : ℚ × ℚ × ℚ := (b.x, b.y, b.z)

def RENDER_DISTANCE : ℚ := 8

def WORLD_SIZE : Int := 32

/-- Source `handleBlockRemove`: keep exactly the blocks whose coordinates differ
from the removed block's coordinates (`prev.filter(b => !(b.x === … && …))`). -/
def handleBlockRemove (blocks : List Block) (x y z : ℚ) : List Block :=
  blocks.filter (fun b => !(decide (b.x = x ∧ b.y = y ∧ b.z = z)))

/-- Source `handleBlockAdd`: check occupancy with `blocks.some(…)`; append the new
block only when the coordinate is free. -/
def handleBlockAdd (blocks : List Block) (x y z : ℚ) (t : BlockType) : List Block :=
  if ∃ b ∈ blocks, b.x = x ∧ b.y = y ∧ b.z = z then blocks
  else blocks ++ [⟨x, y, z, t⟩]

/-- The store's uniqueness invariant: no two blocks share a coordinate. -/
def UniqueCoords (blocks : List Block) : Prop :=
  (blocks.map Block.coords).Nodup

/-- Squared Euclidean distance between a block and the player position.
The source computes `Math.sqrt` of this quantity and compares it with
`RENDER_DISTANCE`; since both sides are nonnegative, `sqrt d < 8` is
equivalent to `d < 8²`, which is the executable comparison used here. -/
def distSq (b : Block) (px py pz : ℚ) : ℚ :=
  (b.x - px) ^ 2 + (b.y - py) ^ 2 + (b.z - pz) ^ 2

/-- Source `visibleBlocks`: the blocks whose Euclidean distance to the player is
strictly below `RENDER_DISTANCE`. -/
def visibleBlocks (blocks : List Block) (px py pz : ℚ) : List Block :=
  blocks.filter (fun b => decide (distSq b px py pz < RENDER_DISTANCE ^ 2))

/-- The 9-slot hotbar: `blockTypes.slice(0, 9)` in the source. -/
def hotbar : List BlockType := blockTypesList.take 9

/-- The selection dispatch: the UI renders one button per hotbar entry, and
clicking (or pressing the digit of) the button for `t` runs
`setSelectedBlock(t)`.  A command naming a type with no hotbar slot has no
handler, so the current selection is kept. -/
def selectType (current : BlockType) (t : BlockType) : BlockType :=
  if t ∈ hotbar then t else current

/-- The raw horizontal intent, z component (lines 149–150 of the source):
start from 0, assign `-1` if the forward flag is set, then assign `+1` if
the backward flag is set. -/
def intentZ (forward backward : Bool) : ℚ :=
  let z : ℚ := 0
  let z := if forward then -1 else z
  let z := if backward then 1 else z
  z

/-- The raw horizontal intent, x component (lines 151–152 of the source):
start from 0, assign `-1` if the left flag is set, then assign `+1` if the
right flag is set. -/
def intentX (left right : Bool) : ℚ :=
  let x : ℚ := 0
  let x := if left then -1 else x
  let x := if right then 1 else x
  x

/-- Player state: camera position plus the persistent velocity vector. -/
structure PState where
  x : ℚ
  y : ℚ
  z : ℚ
  vx : ℚ
  vy : ℚ
  vz : ℚ
deriving DecidableEq, Repr

/-- One `useFrame` tick of `PlayerController`.  `rdx`/`rdz` are the x and z
components of the intent vector after `normalize()`, `applyEuler(camera
.rotation)` and the zeroing of its y component: the normalization and the
camera rotation are the rendering collaborator's trigonometry, so the
rotated-and-flattened horizontal direction enters the embedding as an
input.  The vertical dynamics (jump impulse, gravity, integration, ground
clamp) are exactly lines 161–172 of the source. -/
def tick (rdx rdz : ℚ) (jump : Bool) (delta : ℚ) (s : PState) : PState :=
  let speed : ℚ := 5
  let vx := rdx * speed * delta
  let vz := rdz * speed * delta
  let vy := if jump ∧ s.y ≤ 5 then (0.2 : ℚ) else s.vy
  let vy := vy - 9.8 * delta * 0.1
  let x := s.x + vx
  let y := s.y + vy
  let z := s.z + vz
  if y < 5 then ⟨x, 5, z, vx, 0, vz⟩ else ⟨x, y, z, vx, vy, vz⟩

/-- The column height: `Math.floor(noise2D(x * 0.1, z * 0.1) * 4 + 3)`.
The simplex-noise field created per invocation is an external numeric
function, passed in as `noise`. -/
def height (noise : ℚ → ℚ → ℚ) (x z : Int) : Int :=
  ⌊noise ((x : ℚ) * 0.1) ((z : ℚ) * 0.1) * 4 + 3⌋

/-- The terrain block type at level `y` of a column of height `h`:
`y == height` → grass, `y >= height - 2` → dirt, otherwise stone. -/
def terrainType (h y : Int) : BlockType :=
  if y = h then .grass else if y ≥ h - 2 then .dirt else .stone

/-- The terrain part of a column: one block for each `y` from `0` to `h`
inclusive (empty when `h < 0`, since the loop `for (y = 0; y <= height;)`
does not run). -/
def terrainColumn (x z : Int) (h : Int) : List Block :=
  (List.range (h + 1).toNat).map
    (fun (y : ℕ) => ⟨(x : ℚ), (y : ℚ), (z : ℚ), terrainType h (y : Int)⟩)

/-- The loop values `-2, -1, 0, 1, 2` of the leaf-offset loops. -/
def leafRange : List Int := (List.range 5).map (fun i => (i : Int) - 2)

/-- A tree at column `(x, z)` of height `h`: a trunk of 4 wood blocks at
`y = h+1 … h+4`, then the leaf canopy: for `lx, lz ∈ [-2, 2]` and
`ly ∈ {0, 1}`, a leaves block at `(x+lx, h+4+ly, z+lz)` when
`|lx| + |lz| < 4`, in the source's loop order. -/
def treeBlocks (x z h : Int) : List Block :=
  ((List.range 4).map
    (fun i => ⟨(x : ℚ), ((h + 1 + (i : Int) : Int) : ℚ), (z : ℚ), .wood⟩))
  ++ (leafRange.flatMap (fun lx => leafRange.flatMap (fun lz =>
      (List.range 2).filterMap (fun ly =>
        if |lx| + |lz| < 4 then
          some ⟨((x + lx : Int) : ℚ), ((h + 4 + (ly : Int) : Int) : ℚ),
                ((z + lz : Int) : ℚ), .leaves⟩
        else none))))

/-- All blocks emitted during the `(x, z)` iteration of `generateWorld`:
the terrain column, then a flower when this column's first `Math.random()`
draw exceeds 0.95 and `height > 2`, then a tree when its second draw
exceeds 0.98 and `height > 2`.  The two unseeded `Math.random()` draws of
the column are external inputs, passed in as `fr` and `tr`. -/
def columnBlocks (noise : ℚ → ℚ → ℚ) (fr tr : Int → Int → ℚ)
    (x z : Int) : List Block :=
  let h := height noise x z
  terrainColumn x z h
  ++ (if fr x z > 0.95 ∧ h > 2 then
        [⟨(x : ℚ), ((h + 1 : Int) : ℚ), (z : ℚ), .flower⟩] else [])
  ++ (if tr x z > 0.98 ∧ h > 2 then treeBlocks x z h else [])

/-- The loop values `-32, …, 31` of the world generation loops
(`x, z ∈ [-WORLD_SIZE, WORLD_SIZE)`). -/
def axisRange : List Int := (List.range 64).map (fun i => (i : Int) - 32)

/-- Source `generateWorld`: every column of the `[-32, 32) × [-32, 32)` square, in
loop order. -/
def generateWorld (noise : ℚ → ℚ → ℚ) (fr tr : Int → Int → ℚ) : List Block :=
  axisRange.flatMap (fun x => axisRange.flatMap (fun z =>
    columnBlocks noise fr tr x z))

/-- C2: the claim says that when both the forward and backward flags are
set, the two contributions sum and cancel to a z component of 0.  The
source assigns rather than sums: with both flags set, `intentZ` ends at
`+1` (and `intentX` at `+1`), not 0. -/
theorem intent_both_set_counterexample :
    intentZ true true = 1 ∧ intentX true true = 1 ∧ (1 : ℚ) ≠ 0 :=
  ⟨rfl, rfl, by norm_num⟩

/-- C2 (amended): the four flag branches are sequential assignments, so the
later one wins: the backward flag forces `z = +1` whatever the forward flag
is, and the right flag forces `x = +1` whatever the left flag is; in
particular both-opposite-flags-set yields `+1`, not 0. -/
theorem intent_overwrite (f b l r : Bool) :
    intentZ f b = (if b then 1 else if f then -1 else 0) ∧
    intentX l r = (if r then 1 else if l then -1 else 0) ∧
    intentZ true true = 1 ∧ intentX true true = 1 := by
  refine ⟨?_, ?_, rfl, rfl⟩ <;> cases f <;> cases b <;> cases l <;> cases r <;> rfl

/-- C3: the hotbar is the first 9 block types of the fixed ordering; a
selection command naming a hotbar type overwrites the selection with it,
and a command naming one of the three non-hotbar types (flower, torch,
stairs) leaves the prior selection unchanged. -/
theorem selectType_spec :
    hotbar = [.grass, .dirt, .stone, .wood, .leaves, .planks,
              .bricks, .glass, .wool] ∧
    (∀ cur t, t ∈ hotbar → selectType cur t = t) ∧
    (∀ cur t, t ∉ hotbar → selectType cur t = cur) := by
  refine ⟨by decide, fun cur t ht => ?_, fun cur t ht => ?_⟩ <;>
    simp [selectType, ht]

/-- C3 witness: selecting stone (slot 3) overwrites a grass selection;
a command naming flower (outside the hotbar) keeps the stone selection. -/
theorem selectType_spec_witness :
    BlockType.stone ∈ hotbar ∧ selectType .grass .stone = .stone ∧
    BlockType.flower ∉ hotbar ∧ selectType .stone .flower = .stone :=
  ⟨by decide, selectType_spec.2.1 .grass .stone (by decide),
   by decide, selectType_spec.2.2 .stone .flower (by decide)⟩

/-- C5: adding at an occupied coordinate is a silent no-op (the store is
returned unchanged); adding at a free coordinate appends exactly one block
with that coordinate and type, growing the store by one. -/
theorem handleBlockAdd_spec (s : List Block) (x y z : ℚ) (t : BlockType) :
    ((∃ b ∈ s, b.x = x ∧ b.y = y ∧ b.z = z) → handleBlockAdd s x y z t = s) ∧
    ((¬ ∃ b ∈ s, b.x = x ∧ b.y = y ∧ b.z = z) →
      handleBlockAdd s x y z t = s ++ [⟨x, y, z, t⟩] ∧
      (handleBlockAdd s x y z t).length = s.length + 1) := by
  constructor
  · intro h
    simp [handleBlockAdd, h]
  · intro h
    constructor
    · simp [handleBlockAdd, h]
    · simp [handleBlockAdd, h]

/-- C5 witness: both branches at concrete stores: adding at the occupied
origin of a one-block store keeps it unchanged; adding to the empty store
inserts the one block. -/
theorem handleBlockAdd_spec_witness :
    (∃ b ∈ [(⟨0, 0, 0, .grass⟩ : Block)], b.x = 0 ∧ b.y = 0 ∧ b.z = 0) ∧
    handleBlockAdd [(⟨0, 0, 0, .grass⟩ : Block)] 0 0 0 .stone
      = [(⟨0, 0, 0, .grass⟩ : Block)] ∧
    (¬ ∃ b ∈ ([] : List Block), b.x = 0 ∧ b.y = 0 ∧ b.z = 0) ∧
    handleBlockAdd ([] : List Block) 0 0 0 .stone
      = [] ++ [(⟨0, 0, 0, .stone⟩ : Block)] :=
  ⟨⟨⟨0, 0, 0, .grass⟩, by simp, rfl, rfl, rfl⟩,
   (handleBlockAdd_spec [⟨0, 0, 0, .grass⟩] 0 0 0 .stone).1
     ⟨⟨0, 0, 0, .grass⟩, by simp, rfl, rfl, rfl⟩,
   by simp,
   ((handleBlockAdd_spec [] 0 0 0 .stone).2 (by simp)).1⟩

/-- C6: removal keeps a block with multiplicity intact exactly when its
coordinate differs from the removed one, and deletes every block at the
removed coordinate; removing an absent coordinate returns the store
unchanged. -/
theorem handleBlockRemove_spec (s : List Block) (x y z : ℚ) :
    (∀ b : Block, (handleBlockRemove s x y z).count b =
      if b.x = x ∧ b.y = y ∧ b.z = z then 0 else s.count b) ∧
    ((¬ ∃ b ∈ s, b.x = x ∧ b.y = y ∧ b.z = z) →
      handleBlockRemove s x y z = s) := by
  constructor
  · intro b
    by_cases hb : b.x = x ∧ b.y = y ∧ b.z = z
    · rw [if_pos hb, List.count_eq_zero]
      intro hmem
      rw [handleBlockRemove, List.mem_filter] at hmem
      simpa [hb] using hmem.2
    · rw [if_neg hb, handleBlockRemove, List.count_filter]
      simp [hb]
  · intro h
    rw [handleBlockRemove, List.filter_eq_self]
    intro b hb
    simp only [Bool.not_eq_eq_eq_not, Bool.not_true, decide_eq_false_iff_not]
    exact fun hc => h ⟨b, hb, hc⟩

/-- The executable comparison of `visibleBlocks` agrees with the source's
`Math.sqrt(d) < RENDER_DISTANCE`. -/
lemma distSq_lt_iff_sqrt_lt (q : ℚ) :
    q < RENDER_DISTANCE ^ 2 ↔ Real.sqrt (q : ℝ) < 8 := by
  rw [Real.sqrt_lt' (by norm_num : (0 : ℝ) < 8)]
  rw [RENDER_DISTANCE]
  constructor
  · intro h
    calc (q : ℝ) < ((8 : ℚ) ^ 2 : ℚ) := by exact_mod_cast h
    _ = (8 : ℝ) ^ 2 := by norm_num
  · intro h
    have : (q : ℝ) < ((8 : ℚ) ^ 2 : ℚ) := by
      calc (q : ℝ) < (8 : ℝ) ^ 2 := h
      _ = ((8 : ℚ) ^ 2 : ℚ) := by norm_num
    exact_mod_cast this

/-- C4: a block is returned by the visibility filter exactly when it is in
the store and its Euclidean distance to the player is strictly below 8;
with the player at the origin and blocks at distances 7.9, 8.0 and 8.1
along the x axis, exactly the block at distance 7.9 is returned. -/
theorem visibleBlocks_spec :
    (∀ (s : List Block) (px py pz : ℚ) (b : Block),
      b ∈ visibleBlocks s px py pz ↔
        b ∈ s ∧ Real.sqrt ((distSq b px py pz : ℚ) : ℝ) < 8) ∧
    visibleBlocks
        [⟨79/10, 0, 0, .grass⟩, ⟨8, 0, 0, .dirt⟩, ⟨81/10, 0, 0, .stone⟩]
        0 0 0
      = [⟨79/10, 0, 0, .grass⟩] := by
  constructor
  · intro s px py pz b
    rw [visibleBlocks, List.mem_filter, decide_eq_true_eq,
      distSq_lt_iff_sqrt_lt]
  · rw [visibleBlocks]
    simp only [List.filter, distSq, RENDER_DISTANCE]
    norm_num

/-- C7: for a column whose computed height `h` is nonnegative, the terrain
part (the prefix of the column's blocks) has exactly one block for each
integer `y` from 0 to `h`, each placed at `(x, y, z)`; the levels are
pairwise distinct; the block type is grass at `y = h`, dirt for
`h - 2 ≤ y < h`, and stone below; and for `h = 3` the concrete column at
`(0, 0)` is stone, dirt, dirt, grass at `y = 0, 1, 2, 3` with no terrain
block above `y = 3`. -/
theorem terrainColumn_spec (noise : ℚ → ℚ → ℚ) (fr tr : Int → Int → ℚ)
    (x z h : Int) (hh : height noise x z = h) (h0 : 0 ≤ h) :
    (∃ rest, columnBlocks noise fr tr x z = terrainColumn x z h ++ rest) ∧
    (terrainColumn x z h).length = h.toNat + 1 ∧
    (∀ b : Block, b ∈ terrainColumn x z h ↔ ∃ y : ℤ, 0 ≤ y ∧ y ≤ h ∧
      b = ⟨(x : ℚ), (y : ℚ), (z : ℚ), terrainType h y⟩) ∧
    ((terrainColumn x z h).map Block.y).Nodup ∧
    (∀ y : ℤ, (y = h → terrainType h y = .grass) ∧
      (h - 2 ≤ y → y < h → terrainType h y = .dirt) ∧
      (y < h - 2 → terrainType h y = .stone)) ∧
    (h = 3 → terrainColumn x z h =
      [⟨(x : ℚ), 0, (z : ℚ), .stone⟩, ⟨(x : ℚ), 1, (z : ℚ), .dirt⟩,
       ⟨(x : ℚ), 2, (z : ℚ), .dirt⟩, ⟨(x : ℚ), 3, (z : ℚ), .grass⟩]) := by
  have htn : ((h + 1).toNat : ℤ) = h + 1 := Int.toNat_of_nonneg (by omega)
  refine ⟨⟨(if fr x z > 0.95 ∧ h > 2 then
      [⟨(x : ℚ), ((h + 1 : Int) : ℚ), (z : ℚ), .flower⟩] else [])
    ++ (if tr x z > 0.98 ∧ h > 2 then treeBlocks x z h else []), ?_⟩,
    ?_, ?_, ?_, ?_, ?_⟩
  · rw [columnBlocks, hh, List.append_assoc]
  · rw [terrainColumn, List.length_map, List.length_range]
    omega
  · intro b
    rw [terrainColumn, List.mem_map]
    constructor
    · rintro ⟨y, hy, rfl⟩
      rw [List.mem_range] at hy
      refine ⟨(y : ℤ), Int.ofNat_nonneg y, by omega, ?_⟩
      simp
    · rintro ⟨y, hy0, hyh, rfl⟩
      refine ⟨y.toNat, ?_, ?_⟩
      · rw [List.mem_range]
        omega
      · have hty : ((y.toNat : ℤ)) = y := Int.toNat_of_nonneg hy0
        rw [← hty]
        push_cast
        rfl
  · rw [terrainColumn, List.map_map]
    refine List.Nodup.map ?_ (List.nodup_range _)
    intro a b hab
    simpa using hab
  · intro y
    refine ⟨fun hy => ?_, fun hy1 hy2 => ?_, fun hy => ?_⟩
    · rw [terrainType, if_pos hy]
    · rw [terrainType, if_neg (by omega), if_pos (by omega)]
    · rw [terrainType, if_neg (by omega), if_neg (by omega)]
  · rintro rfl
    rw [terrainColumn]
    have h4 : ((3 : ℤ) + 1).toNat = 4 := rfl
    rw [h4]
    simp only [List.range_succ, List.range_zero, List.nil_append,
      List.cons_append, List.map_cons, List.map_nil, terrainType]
    norm_num

/-- C7 witness: a constant-zero noise field gives the column at `(0,0)`
height 3, and the theorem's conclusions hold there. -/
theorem terrainColumn_spec_witness :
    height (fun _ _ => 0) 0 0 = 3 ∧ (0 : ℤ) ≤ 3 ∧
    (terrainColumn 0 0 3).length = (3 : ℤ).toNat + 1 ∧
    (terrainColumn 0 0 3 =
      [⟨0, 0, 0, .stone⟩, ⟨0, 1, 0, .dirt⟩,
       ⟨0, 2, 0, .dirt⟩, ⟨0, 3, 0, .grass⟩]) := by
  have hht : height (fun _ _ => 0) 0 0 = 3 := by
    rw [height]
    norm_num
  have hs := terrainColumn_spec (fun _ _ => 0) (fun _ _ => 0) (fun _ _ => 0)
    0 0 3 hht (by norm_num)
  refine ⟨hht, by norm_num, hs.2.1, ?_⟩
  have h4 := hs.2.2.2.2.2 rfl
  simpa using h4

/-- The vertical position the integration step produces, before the ground
clamp: the current `y` plus the post-gravity vertical velocity. -/
def integratedY (jump : Bool) (delta : ℚ) (s : PState) : ℚ :=
  s.y + ((if jump ∧ s.y ≤ 5 then (0.2 : ℚ) else s.vy) - 9.8 * delta * 0.1)

/-- C8: the claim's net-velocity equation fails on a tick in which the
ground clamp fires: jumping at `y = 5` with `delta = 1`, the tick ends with
vertical velocity 0, while `0.2 - 9.8*delta*0.1 = -0.78 ≠ 0` (the
integration puts `y` at `4.22 < 5`, so the clamp zeroes the velocity). -/
theorem jump_net_velocity_counterexample :
    (tick 0 0 true 1 ⟨0, 5, 0, 0, 0, 0⟩).vy = 0 ∧
    (0.2 - 9.8 * 1 * 0.1 : ℚ) = -0.78 ∧ (0 : ℚ) ≠ -0.78 := by
  refine ⟨?_, by norm_num, by norm_num⟩
  norm_num [tick]

/-- C8 (amended): on a tick with the jump flag set and `y ≤ 5`, the
vertical velocity is set to the impulse 0.2 before that tick's gravity
subtraction, and the net vertical velocity at the end of the tick equals
`0.2 - 9.8*delta*0.1` provided the integrated height stays at or above the
ground plane (otherwise the ground clamp zeroes it). -/
theorem jump_net_velocity (rdx rdz delta : ℚ) (s : PState)
    (hj : s.y ≤ 5) (hnc : 5 ≤ s.y + (0.2 - 9.8 * delta * 0.1)) :
    (tick rdx rdz true delta s).vy = 0.2 - 9.8 * delta * 0.1 := by
  rw [tick]
  simp only [show ((true = true) ∧ s.y ≤ 5) from ⟨rfl, hj⟩, if_pos,
    eq_self_iff_true, true_and, hj, if_true]
  rw [if_neg]
  push_neg
  linarith

/-- C8 witness: at `y = 5` with `delta = 1/60` the amended equation holds:
the tick ends with vertical velocity `0.2 - 9.8*(1/60)*0.1`. -/
theorem jump_net_velocity_witness :
    (0 : ℚ) + 5 * 0 ≤ 5 ∧
    (5 : ℚ) ≤ 5 + (0.2 - 9.8 * (1/60) * 0.1) ∧
    (tick 0 0 true (1/60) ⟨0, 5, 0, 0, 0, 0⟩).vy = 0.2 - 9.8 * (1/60) * 0.1 :=
  ⟨by norm_num, by norm_num,
   jump_net_velocity 0 0 (1/60) ⟨0, 5, 0, 0, 0, 0⟩ (by norm_num) (by norm_num)⟩

/-- C9: after any tick the player's height is at least 5; whenever the
integration step yields `y < 5` the result is clamped to exactly 5 with the
vertical velocity zeroed (the tick never consults the block store — it is
not even an input of the step); and one tick from rest at `y = 5` with no
jump input and `delta = 1/60` ends at exactly `y = 5`. -/
theorem ground_clamp_spec :
    (∀ (rdx rdz : ℚ) (jump : Bool) (delta : ℚ) (s : PState),
      5 ≤ (tick rdx rdz jump delta s).y) ∧
    (∀ (rdx rdz : ℚ) (jump : Bool) (delta : ℚ) (s : PState),
      integratedY jump delta s < 5 →
      (tick rdx rdz jump delta s).y = 5 ∧ (tick rdx rdz jump delta s).vy = 0) ∧
    (tick 0 0 false (1/60) ⟨0, 5, 0, 0, 0, 0⟩).y = 5 := by
  refine ⟨fun rdx rdz jump delta s => ?_, fun rdx rdz jump delta s hlt => ?_, ?_⟩
  · rw [tick]
    split <;> split <;> simp_all
  · rw [integratedY] at hlt
    constructor
    · rw [tick, if_pos hlt]
    · rw [tick, if_pos hlt]
  · norm_num [tick]

/-- C9 witness: the clamp branch at a concrete falling tick: from rest at
`y = 5`, no jump, `delta = 1/60`, the integrated height drops below 5, and
the tick ends clamped at `y = 5` with zero vertical velocity. -/
theorem ground_clamp_spec_witness :
    integratedY false (1/60) ⟨0, 5, 0, 0, 0, 0⟩ < 5 ∧
    (tick 1 1 false (1/60) ⟨0, 5, 0, 0, 0, 0⟩).y = 5 ∧
    (tick 1 1 false (1/60) ⟨0, 5, 0, 0, 0, 0⟩).vy = 0 :=
  ⟨by norm_num [integratedY],
   (ground_clamp_spec.2.1 1 1 false (1/60) ⟨0, 5, 0, 0, 0, 0⟩
     (by norm_num [integratedY])).1,
   (ground_clamp_spec.2.1 1 1 false (1/60) ⟨0, 5, 0, 0, 0, 0⟩
     (by norm_num [integratedY])).2⟩

/-- A constant noise field (scratch instantiation of the external simplex
field). -/
def constNoise (q : ℚ) : ℚ → ℚ → ℚ := fun _ _ => q

/-- A per-column draw that returns 1 at the origin column and 0 elsewhere
(scratch instantiation of the external `Math.random()` draws). -/
def originDraw : Int → Int → ℚ := fun x z => if x = 0 ∧ z = 0 then 1 else 0

/-- A per-column draw that always returns 0. -/
def zeroDraw : Int → Int → ℚ := fun _ _ => 0

/-- The element emitted for one list element is a sublist of the flatMap. -/
lemma flatMap_sublist_of_mem {α β : Type} {l : List α} {f : α → List β}
    {a : α} (h : a ∈ l) : (f a).Sublist (l.flatMap f) := by
  induction l with
  | nil => cases h
  | cons hd tl ih =>
    rw [List.flatMap_cons]
    rcases List.mem_cons.mp h with rfl | h'
    · exact List.sublist_append_left _ _
    · exact (ih h').trans (List.sublist_append_right _ _)

/-- When the column's tree draw does not fire, every block the column emits
sits at the column's own `(x, z)`. -/
lemma mem_columnBlocks_of_noTree {noise : ℚ → ℚ → ℚ} {fr tr : Int → Int → ℚ}
    {x z : Int} (hnt : ¬ tr x z > 0.98) {b : Block}
    (hb : b ∈ columnBlocks noise fr tr x z) : b.x = (x : ℚ) ∧ b.z = (z : ℚ) := by
  rw [columnBlocks] at hb
  have : ¬ (tr x z > 0.98 ∧ height noise x z > 2) := fun hc => hnt hc.1
  rw [if_neg this, List.append_nil] at hb
  rcases List.mem_append.mp hb with ht | hf
  · rw [terrainColumn] at ht
    rcases List.mem_map.mp ht with ⟨y, _, rfl⟩
    exact ⟨rfl, rfl⟩
  · rcases Classical.em (fr x z > 0.95 ∧ height noise x z > 2) with hp | hp
    · rw [if_pos hp, List.mem_singleton] at hf
      subst hf
      exact ⟨rfl, rfl⟩
    · rw [if_neg hp] at hf
      cases hf

/-- C10: the column height is negative exactly when the noise sample is
below `-0.75`; such a column emits no block at all (no terrain, flower or
tree); and in a world in which no tree draw fires, no generated block sits
at that column's `(x, z)`, so the world can contain completely empty
columns inside the `WORLD_SIZE` square. -/
theorem negative_height_empty_column (noise : ℚ → ℚ → ℚ)
    (fr tr : Int → Int → ℚ) (x z : Int) :
    (height noise x z < 0 ↔ noise ((x : ℚ) * 0.1) ((z : ℚ) * 0.1) < -(3/4)) ∧
    (height noise x z < 0 → columnBlocks noise fr tr x z = []) ∧
    (height noise x z < 0 → (∀ x' z', ¬ tr x' z' > 0.98) →
      ∀ b ∈ generateWorld noise fr tr, ¬ (b.x = (x : ℚ) ∧ b.z = (z : ℚ))) := by
  refine ⟨?_, fun hneg => ?_, fun hneg hnt b hb hxz => ?_⟩
  · rw [height, Int.floor_lt]
    push_cast
    constructor <;> intro h <;> linarith
  · rw [columnBlocks, terrainColumn]
    have h2 : ¬ height noise x z > 2 := by omega
    rw [if_neg (fun hc => h2 hc.2), if_neg (fun hc => h2 hc.2)]
    have : (height noise x z + 1).toNat = 0 := by omega
    rw [this]
    rfl
  · rw [generateWorld] at hb
    rcases List.mem_flatMap.mp hb with ⟨x', _, hb'⟩
    rcases List.mem_flatMap.mp hb' with ⟨z', _, hb''⟩
    have hcol := mem_columnBlocks_of_noTree (hnt x' z') hb''
    have hx : x' = x := by
      have := hcol.1.symm.trans hxz.1
      exact_mod_cast this
    have hz : z' = z := by
      have := hcol.2.symm.trans hxz.2
      exact_mod_cast this
    subst hx; subst hz
    have hempty : columnBlocks noise fr tr x' z' = [] := by
      rw [columnBlocks, terrainColumn]
      have h2 : ¬ height noise x' z' > 2 := by omega
      rw [if_neg (fun hc => h2 hc.2), if_neg (fun hc => h2 hc.2)]
      have : (height noise x' z' + 1).toNat = 0 := by omega
      rw [this]
      rfl
    rw [hempty] at hb''
    cases hb''

/-- C10 witness: a constant `-1` noise field makes every column height
`-1 < 0`; with no draws firing, the origin column emits nothing and the
whole generated world holds no block at `(0, z)`-columns' `x = 0, z = 0`. -/
theorem negative_height_empty_column_witness :
    height (constNoise (-1)) 0 0 < 0 ∧
    columnBlocks (constNoise (-1)) zeroDraw zeroDraw 0 0 = [] ∧
    (∀ b ∈ generateWorld (constNoise (-1)) zeroDraw zeroDraw,
      ¬ (b.x = ((0 : ℤ) : ℚ) ∧ b.z = ((0 : ℤ) : ℚ))) := by
  have hneg : height (constNoise (-1)) 0 0 < 0 := by
    rw [height]
    norm_num [constNoise]
  have hnt : ∀ x' z' : ℤ, ¬ zeroDraw x' z' > 0.98 := by
    intro x' z'
    norm_num [zeroDraw]
  exact ⟨hneg,
    (negative_height_empty_column (constNoise (-1)) zeroDraw zeroDraw 0 0).2.1 hneg,
    (negative_height_empty_column (constNoise (-1)) zeroDraw zeroDraw 0 0).2.2 hneg hnt⟩

lemma axisRange_nodup : axisRange.Nodup := by decide

/-- Without a tree, a column's emitted coordinates are pairwise distinct:
the terrain levels are distinct naturals and the flower sits one level
above the terrain top. -/
lemma columnBlocks_coords_nodup_of_noTree {noise : ℚ → ℚ → ℚ}
    {fr tr : Int → Int → ℚ} {x z : Int} (hnt : ¬ tr x z > 0.98) :
    ((columnBlocks noise fr tr x z).map Block.coords).Nodup := by
  rw [columnBlocks]
  have hnotree : ¬ (tr x z > 0.98 ∧ height noise x z > 2) := fun hc => hnt hc.1
  rw [if_neg hnotree, List.append_nil, List.map_append, List.nodup_append]
  refine ⟨?_, ?_, ?_⟩
  · rw [terrainColumn, List.map_map]
    refine List.Nodup.map ?_ (List.nodup_range _)
    intro a b hab
    simp only [Function.comp, Block.coords, Prod.mk.injEq] at hab
    exact_mod_cast hab.2.1
  · rcases Classical.em (fr x z > 0.95 ∧ height noise x z > 2) with hp | hp
    · rw [if_pos hp]
      exact List.nodup_singleton _
    · rw [if_neg hp]
      exact List.nodup_nil
  · intro c hcT hcF
    rcases Classical.em (fr x z > 0.95 ∧ height noise x z > 2) with hp | hp
    · rw [if_pos hp] at hcF
      simp only [List.map_cons, List.map_nil, List.mem_singleton,
        Block.coords] at hcF
      subst hcF
      rw [terrainColumn, List.map_map, List.mem_map] at hcT
      rcases hcT with ⟨y, hy, hc⟩
      rw [List.mem_range] at hy
      simp only [Function.comp, Block.coords, Prod.mk.injEq] at hc
      have hyq : ((y : ℤ) : ℚ) = ((height noise x z + 1 : ℤ) : ℚ) := by
        push_cast
        push_cast at hc
        exact hc.2.1
      have hyz : (y : ℤ) = height noise x z + 1 := by exact_mod_cast hyq
      omega
    · rw [if_neg hp] at hcF
      cases hcF

/-- C1 (amended): `add` and `remove` preserve coordinate uniqueness, and
the initial population is coordinate-unique whenever no tree draw fires
(terrain plus flowers alone never collide); with trees the initial
population can duplicate a coordinate, as the counterexample shows. -/
theorem uniqueness_preservation :
    (∀ (s : List Block) (x y z : ℚ) (t : BlockType), UniqueCoords s →
      UniqueCoords (handleBlockAdd s x y z t)) ∧
    (∀ (s : List Block) (x y z : ℚ), UniqueCoords s →
      UniqueCoords (handleBlockRemove s x y z)) ∧
    (∀ (noise : ℚ → ℚ → ℚ) (fr tr : Int → Int → ℚ),
      (∀ x z, ¬ tr x z > 0.98) → UniqueCoords (generateWorld noise fr tr)) := by
  refine ⟨fun s x y z t hs => ?_, fun s x y z hs => ?_, fun noise fr tr hnt => ?_⟩
  · rw [handleBlockAdd]
    split
    · exact hs
    · next hocc =>
      rw [UniqueCoords, List.map_append, List.nodup_append]
      refine ⟨hs, List.nodup_singleton _, ?_⟩
      intro c hc hc'
      simp only [List.map_cons, List.map_nil, List.mem_singleton] at hc'
      subst hc'
      rcases List.mem_map.mp hc with ⟨b, hb, hcoords⟩
      simp only [Block.coords, Prod.mk.injEq] at hcoords
      exact hocc ⟨b, hb, hcoords.1, hcoords.2.1, hcoords.2.2⟩
  · exact List.Nodup.sublist (List.Sublist.map _ (List.filter_sublist _)) hs
  · rw [UniqueCoords, generateWorld]
    simp only [List.map_flatMap]
    rw [List.nodup_flatMap]
    constructor
    · intro x _
      rw [List.nodup_flatMap]
      constructor
      · intro z _
        exact columnBlocks_coords_nodup_of_noTree (hnt x z)
      · refine List.Pairwise.imp ?_ axisRange_nodup
        intro z z' hzz c hc hc'
        rcases List.mem_map.mp hc with ⟨b, hb, rfl⟩
        rcases List.mem_map.mp hc' with ⟨b', hb', hbc⟩
        have h1 := (mem_columnBlocks_of_noTree (hnt x z) hb).2
        have h2 := (mem_columnBlocks_of_noTree (hnt x z') hb').2
        have : b'.z = b.z := congrArg (fun p => p.2.2) hbc
        apply hzz
        have : ((z : ℤ) : ℚ) = ((z' : ℤ) : ℚ) := by
          rw [← h1, ← h2, this]
        exact_mod_cast this
    · refine List.Pairwise.imp ?_ axisRange_nodup
      intro x x' hxx c hc hc'
      rcases List.mem_flatMap.mp hc with ⟨z, _, hcz⟩
      rcases List.mem_flatMap.mp hc' with ⟨z', _, hcz'⟩
      rcases List.mem_map.mp hcz with ⟨b, hb, rfl⟩
      rcases List.mem_map.mp hcz' with ⟨b', hb', hbc⟩
      have h1 := (mem_columnBlocks_of_noTree (hnt x z) hb).1
      have h2 := (mem_columnBlocks_of_noTree (hnt x' z') hb').1
      have : b'.x = b.x := congrArg (fun p => p.1) hbc
      apply hxx
      have : ((x : ℤ) : ℚ) = ((x' : ℤ) : ℚ) := by
        rw [← h1, ← h2, this]
      exact_mod_cast this

/-- C1 counterexample: with a constant-zero noise field (every column has
height 3) and draws that fire both the flower and the tree at the origin
column, `generateWorld` emits the flower and the first trunk block at the
same coordinate `(0, 4, 0)`, so the initial population is not
coordinate-unique. -/
theorem generateWorld_duplicate_counterexample :
    ¬ UniqueCoords (generateWorld (constNoise 0) originDraw originDraw) := by
  intro huniq
  have h3 : height (constNoise 0) 0 0 = 3 := by
    rw [height]
    norm_num [constNoise]
  have hfl : originDraw 0 0 > 0.95 ∧ (3 : ℤ) > 2 :=
    ⟨by norm_num [originDraw], by norm_num⟩
  have htr : originDraw 0 0 > 0.98 ∧ (3 : ℤ) > 2 :=
    ⟨by norm_num [originDraw], by norm_num⟩
  have hcol : columnBlocks (constNoise 0) originDraw originDraw 0 0 =
      (terrainColumn 0 0 3
        ++ [⟨((0 : ℤ) : ℚ), ((3 + 1 : ℤ) : ℚ), ((0 : ℤ) : ℚ), .flower⟩])
        ++ treeBlocks 0 0 3 := by
    rw [columnBlocks, h3, if_pos hfl, if_pos htr]
  have h0 : (0 : ℤ) ∈ axisRange := by decide
  have hstep1 : (columnBlocks (constNoise 0) originDraw originDraw 0 0).Sublist
      (axisRange.flatMap
        (fun z => columnBlocks (constNoise 0) originDraw originDraw 0 z)) :=
    flatMap_sublist_of_mem h0
  have hstep2 : (axisRange.flatMap
      (fun z => columnBlocks (constNoise 0) originDraw originDraw 0 z)).Sublist
      (axisRange.flatMap (fun x => axisRange.flatMap
        (fun z => columnBlocks (constNoise 0) originDraw originDraw x z))) :=
    flatMap_sublist_of_mem
      (f := fun x => axisRange.flatMap
        (fun z => columnBlocks (constNoise 0) originDraw originDraw x z)) h0
  have hsubcol : (columnBlocks (constNoise 0) originDraw originDraw 0 0).Sublist
      (generateWorld (constNoise 0) originDraw originDraw) := by
    rw [generateWorld]
    exact hstep1.trans hstep2
  have hw0mem : (⟨((0 : ℤ) : ℚ), ((3 + 1 + ((0 : ℕ) : ℤ) : ℤ) : ℚ),
      ((0 : ℤ) : ℚ), .wood⟩ : Block) ∈ treeBlocks 0 0 3 := by
    rw [treeBlocks]
    exact List.mem_append.mpr (Or.inl (List.mem_map.mpr ⟨0, by norm_num, rfl⟩))
  have hpair : ([⟨((0 : ℤ) : ℚ), ((3 + 1 : ℤ) : ℚ), ((0 : ℤ) : ℚ), .flower⟩,
      ⟨((0 : ℤ) : ℚ), ((3 + 1 + ((0 : ℕ) : ℤ) : ℤ) : ℚ), ((0 : ℤ) : ℚ), .wood⟩] :
      List Block).Sublist
      (columnBlocks (constNoise 0) originDraw originDraw 0 0) := by
    rw [hcol, List.append_assoc]
    refine List.Sublist.trans ?_
      (List.sublist_append_right (terrainColumn 0 0 3) _)
    exact List.Sublist.append
      (List.Sublist.refl
        [⟨((0 : ℤ) : ℚ), ((3 + 1 : ℤ) : ℚ), ((0 : ℤ) : ℚ), .flower⟩])
      (List.singleton_sublist.mpr hw0mem)
  have hnodup := List.Nodup.sublist
    (List.Sublist.map Block.coords (hpair.trans hsubcol)) huniq
  simp only [List.map_cons, List.map_nil, Block.coords] at hnodup
  rw [List.nodup_cons] at hnodup
  apply hnodup.1
  rw [List.mem_singleton, Prod.ext_iff, Prod.ext_iff]
  norm_num

/-- C1 witness: uniqueness of the empty store is preserved by an add and a
remove, and a tree-free generated world (all draws 0) is coordinate-unique. -/
theorem uniqueness_preservation_witness :
    UniqueCoords ([] : List Block) ∧
    UniqueCoords (handleBlockAdd [] 0 0 0 .grass) ∧
    UniqueCoords (handleBlockRemove [] 0 0 0) ∧
    (∀ x z : ℤ, ¬ zeroDraw x z > 0.98) ∧
    UniqueCoords (generateWorld (constNoise 0) zeroDraw zeroDraw) := by
  have hnil : UniqueCoords ([] : List Block) := List.nodup_nil
  have hnt : ∀ x z : ℤ, ¬ zeroDraw x z > 0.98 := by
    intro x z
    norm_num [zeroDraw]
  exact ⟨hnil, uniqueness_preservation.1 [] 0 0 0 .grass hnil,
    uniqueness_preservation.2.1 [] 0 0 0 hnil, hnt,
    uniqueness_preservation.2.2 (constNoise 0) zeroDraw zeroDraw hnt⟩

/-- C6 witness: removing the origin from a store holding only a block at
`(1,0,0)` keeps that block's count and leaves the store unchanged. -/
theorem handleBlockRemove_spec_witness :
    ((handleBlockRemove [(⟨1, 0, 0, .grass⟩ : Block)] 0 0 0).count
        (⟨1, 0, 0, .grass⟩ : Block)
      = if (1 : ℚ) = 0 ∧ (0 : ℚ) = 0 ∧ (0 : ℚ) = 0 then 0
        else ([(⟨1, 0, 0, .grass⟩ : Block)].count (⟨1, 0, 0, .grass⟩ : Block))) ∧
    (¬ ∃ b ∈ [(⟨1, 0, 0, .grass⟩ : Block)], b.x = 0 ∧ b.y = 0 ∧ b.z = 0) ∧
    handleBlockRemove [(⟨1, 0, 0, .grass⟩ : Block)] 0 0 0
      = [(⟨1, 0, 0, .grass⟩ : Block)] :=
  ⟨(handleBlockRemove_spec [⟨1, 0, 0, .grass⟩] 0 0 0).1 ⟨1, 0, 0, .grass⟩,
   by norm_num,
   (handleBlockRemove_spec [⟨1, 0, 0, .grass⟩] 0 0 0).2 (by norm_num)⟩
